import Mathlib

/-!
Verification of the batch orchestration and result-merging pipeline of
`fowd/cdip.py` (CDIP input file processing into FOWD datasets).

The development shallowly embeds the orchestration layer of
`process_cdip_station`: the per-file result handling closure
(`handle_result`), the completion loop over work units (parallel pool or
sequential shortcut), and the merge generator (`generate_results`) that
rewrites per-unit local wave identifiers into one global contiguous
identifier space.

File contents (paths, pickle stores) are embedded by their values: a chunk
store handle is represented by the list of chunks that
`read_pickle_outfile_chunks` would yield from it, and a state file handle by
the `num_flags_fired` mapping that `read_pickle_statefile` would return.
Exceptions are embedded with `Except`; log/progress side effects are
embedded as an explicit event list.
-/

namespace Fowd

/-- One record chunk as stored in a `.waves.pkl` outfile: the
`wave_id_local` field (a list of identifiers, one per record) together with
the remaining record fields, kept opaque as `payload` since the merge stage
never touches them. -/
structure RecordChunk where
  wave_id_local : List Nat
  payload : List Int
  deriving DecidableEq

/-- The sequence of chunks `read_pickle_outfile_chunks` yields from one
unit's outfile. `none` stands for a falsy chunk (the `if not record_chunk`
/ `if record_chunk` guards in the source), distinct from a truthy chunk
whose `wave_id_local` list happens to be empty. -/
abbrev ChunkStream := List (Option RecordChunk)

/-- The `num_flags_fired` mapping of one unit's state file: QC flag name to
fire count. -/
abbrev StateSummary := List (String × Nat)

/-- Outcome of `get_cdip_wave_records` for one input file: `skip` embeds the
`(None, None)` return on `InvalidCDIPFile`, `ok` a successful run with its
outfile chunks and statefile summary, and `fatal` an unhandled exception
(carrying an opaque code). -/
inductive CompOutcome where
  | skip
  | ok (chunks : ChunkStream) (state : StateSummary)
  | fatal (e : Nat)
  deriving DecidableEq

/-- Whether an outcome is an unhandled exception. -/
def CompOutcome.isFatal : CompOutcome → Bool
  | .fatal _ => true
  | _ => false

/-- The `(result_file, state_file)` pair that `handle_result` receives for
an outcome that did not raise. -/
def CompOutcome.resultPair : CompOutcome → Option ChunkStream × Option StateSummary
  | .ok chunks state => (some chunks, some state)
  | _ => (none, none)

/-- Log/progress events emitted by the orchestration layer, in order. -/
inductive LogEvent where
  | skipWarning (i : Nat)
  | finished (i : Nat) (numWaves : Nat)
  | flagsFired (i : Nat) (flags : StateSummary)
  | noOutputWarning
  deriving DecidableEq

/-- The mutable state captured by the `handle_result` closure: the
`num_waves_total` accumulator and the canonical-order `result_files` list
(slot `i` holds unit `i`'s chunk store once it completed successfully,
`none` while unset or skipped). -/
structure AggState where
  num_waves_total : Nat
  result_files : List (Option ChunkStream)
  deriving DecidableEq

/-- The wave count `handle_result` computes for one unit: the loop
`for record_chunk in read_pickle_outfile_chunks(result_file): if
record_chunk: num_waves += len(record_chunk['wave_id_local'])`. -/
def unit_num_waves : ChunkStream → Nat
  | [] => 0
  | none :: rest => unit_num_waves rest
  | some ch :: rest => ch.wave_id_local.length + unit_num_waves rest

/-- Embedding of the `handle_result` closure of `process_cdip_station`.
Given the unit index and its `(result_file, state_file)` pair, it returns
the updated accumulator state and the events logged: on a pair with either
component `None` it only logs a skip warning; otherwise it adds the unit's
wave count into `num_waves_total`, stores the result in `result_files[i]`,
reads the statefile's `num_flags_fired` and logs it. -/
def handle_result (i : Nat) (result : Option ChunkStream × Option StateSummary)
    (st : AggState) : AggState × List LogEvent :=
  match result with
  | (some result_file, some state_file) =>
    let num_waves := unit_num_waves result_file
    (⟨st.num_waves_total + num_waves, st.result_files.set i (some result_file)⟩,
      [LogEvent.finished i num_waves, LogEvent.flagsFired i state_file])
  | _ => (st, [LogEvent.skipWarning i])

/-- Embedding of the completion loop of `process_cdip_station`: work-unit
completions are handled one by one in `order` (completion order for the
pool branch, index order for the sequential branch), calling
`handle_result` on each `future.result()`. A `fatal` outcome embeds
`future.result()` raising: the loop aborts (remaining workers are
terminated) and the original error propagates. -/
def run_units (outcomes : List CompOutcome) : List Nat → AggState →
    Except Nat (AggState × List LogEvent)
  | [], st => Except.ok (st, [])
  | i :: rest, st =>
    match outcomes.getD i CompOutcome.skip with
    | CompOutcome.fatal e => Except.error e
    | o =>
      let r := handle_result i o.resultPair st
      match run_units outcomes rest r.1 with
      | Except.error e => Except.error e
      | Except.ok (st', log) => Except.ok (st', r.2 ++ log)

/-- Embedding of the inner loop of the `generate_results` generator: walk
one unit's chunk store in order, skip falsy chunks, replace each remaining
chunk's `wave_id_local` with `np.arange(current_wave_id, current_wave_id +
chunk_size)` and advance the counter. Returns the renumbered chunks and
the final counter value. -/
def process_chunks : Nat → ChunkStream → List RecordChunk × Nat
  | current_wave_id, [] => ([], current_wave_id)
  | current_wave_id, none :: rest => process_chunks current_wave_id rest
  | current_wave_id, some ch :: rest =>
    let chunk_size := ch.wave_id_local.length
    let r := process_chunks (current_wave_id + chunk_size) rest
    ({ ch with wave_id_local := List.range' current_wave_id chunk_size } :: r.1, r.2)

/-- Embedding of the outer loop of `generate_results`: walk `result_files`
in canonical unit order, skip `None` entries (skipped units), and renumber
every unit's chunks with the running `current_wave_id` counter. -/
def generate_results_from : Nat → List (Option ChunkStream) → List RecordChunk × Nat
  | current_wave_id, [] => ([], current_wave_id)
  | current_wave_id, none :: rest => generate_results_from current_wave_id rest
  | current_wave_id, some chunks :: rest =>
    let r := process_chunks current_wave_id chunks
    let r' := generate_results_from r.2 rest
    (r.1 ++ r'.1, r'.2)

/-- The `generate_results` generator of `process_cdip_station`, starting
from `current_wave_id = 0`. First component: the merged chunk stream handed
to `write_records`; second component: the final counter value. -/
def generate_results (result_files : List (Option ChunkStream)) : List RecordChunk × Nat :=
  generate_results_from 0 result_files

/-- Embedding of lines 179-182 of the source: `nproc` defaults to
`multiprocessing.cpu_count()` when not supplied, then is clamped by
`nproc = min(nproc, num_inputs)`. -/
def effective_nproc (nproc : Option Nat) (cpu_count num_inputs : Nat) : Nat :=
  min (nproc.getD cpu_count) num_inputs

/-- The order in which unit completions are handled: the pool branch
(`nproc > 1`) observes completions in an arbitrary completion order, the
sequential shortcut iterates units in index order. -/
def dispatch_order (nproc num_inputs : Nat) (completion_order : List Nat) : List Nat :=
  if 1 < nproc then completion_order else List.range num_inputs

/-- Errors `process_cdip_station` can raise: the `RuntimeError` for an
input folder without valid station files, or a propagated worker error. -/
inductive Err where
  | configError
  | workerError (e : Nat)
  deriving DecidableEq

/-- Observable result of a successful `process_cdip_station` run:
`written = some chunks` when `write_records` was invoked on the merged
stream, `none` when no output was written; plus the final
`num_waves_total` and the event log. -/
structure StationOutput where
  written : Option (List RecordChunk)
  num_waves_total : Nat
  log : List LogEvent
  deriving DecidableEq

/-- Embedding of `process_cdip_station`. Inputs: the per-file computation
outcomes (in canonical sorted file order), the requested `nproc`, the
machine's core count, and the completion order the pool would deliver.
Mirrors the source: raise `RuntimeError` on zero station files; compute the
effective worker count; run the completion loop (pool or sequential);
return with a warning and no write if no unit produced a result; otherwise
invoke `write_records` on `generate_results()`. -/
def process_cdip_station (outcomes : List CompOutcome) (nproc : Option Nat)
    (cpu_count : Nat) (completion_order : List Nat) : Except Err StationOutput :=
  if outcomes.length = 0 then
    Except.error Err.configError
  else
    match run_units outcomes
        (dispatch_order (effective_nproc nproc cpu_count outcomes.length)
          outcomes.length completion_order)
        ⟨0, List.replicate outcomes.length none⟩ with
    | Except.error e => Except.error (Err.workerError e)
    | Except.ok (st, log) =>
      if st.result_files.any Option.isSome then
        Except.ok ⟨some (generate_results st.result_files).1, st.num_waves_total, log⟩
      else
        Except.ok ⟨none, st.num_waves_total, log ++ [LogEvent.noOutputWarning]⟩

/-- The chunks that actually carry records into the merge: non-`None`
units in canonical order, each unit's truthy chunks in store order. -/
def presentChunks (result_files : List (Option ChunkStream)) : List RecordChunk :=
  ((result_files.filterMap id).flatten).filterMap id

/-- Record count of a unit slot: zero for a skipped unit. -/
def slotWaves : Option ChunkStream → Nat
  | none => 0
  | some chunks => unit_num_waves chunks

/-- The `result_files` slot a terminal outcome leaves behind: successful
units store their chunk stream, skipped (and never-completed) units leave
`none`. -/
def toSlot : CompOutcome → Option ChunkStream
  | CompOutcome.ok chunks _ => some chunks
  | _ => none

/-- Wave count contributed to `num_waves_total` by the unit at index `i`. -/
def uw (outcomes : List CompOutcome) (i : Nat) : Nat :=
  slotWaves (toSlot (outcomes.getD i CompOutcome.skip))

/-- State transition of one completion-handling step. -/
def step (outcomes : List CompOutcome) (st : AggState) (i : Nat) : AggState :=
  (handle_result i (outcomes.getD i CompOutcome.skip).resultPair st).1

/-- Update of the `result_files` list performed by one completion step. -/
def upd (outcomes : List CompOutcome) (rf : List (Option ChunkStream)) (i : Nat) :
    List (Option ChunkStream) :=
  match outcomes.getD i CompOutcome.skip with
  | CompOutcome.ok chunks _ => rf.set i (some chunks)
  | _ => rf

/-- Events logged by one completion step. -/
def unitEvents (outcomes : List CompOutcome) (i : Nat) : List LogEvent :=
  match outcomes.getD i CompOutcome.skip with
  | CompOutcome.ok chunks state =>
    [LogEvent.finished i (unit_num_waves chunks), LogEvent.flagsFired i state]
  | _ => [LogEvent.skipWarning i]

/-- Projection of a batch result onto what `write_records` receives and the
final wave count, discarding the log: the merged-output view of a run. -/
def outProj : Except Err StationOutput → Except Err (Option (List RecordChunk) × Nat)
  | Except.error e => Except.error e
  | Except.ok o => Except.ok (o.written, o.num_waves_total)

/-- The flag-count mappings the run logged, one entry per `flagsFired`
event, in log order. -/
def loggedFlags (log : List LogEvent) : List StateSummary :=
  log.filterMap (fun e =>
    match e with
    | LogEvent.flagsFired _ flags => some flags
    | _ => none)

/-- The per-unit state summaries of the non-skipped units, in the order the
units were handled. -/
def unitFlagSummaries (outcomes : List CompOutcome) (order : List Nat) : List StateSummary :=
  order.filterMap (fun i =>
    match outcomes.getD i CompOutcome.skip with
    | CompOutcome.ok _ state => some state
    | _ => none)

/-- Every count value logged for one flag name, across all `flagsFired`
events of a run. -/
def loggedFlagValues (log : List LogEvent) (key : String) : List Nat :=
  (loggedFlags log).flatten.filterMap
    (fun kv => if kv.1 = key then some kv.2 else none)

/-- Event log of a batch run ([] for a failed batch). -/
def stationLog : Except Err StationOutput → List LogEvent
  | Except.ok o => o.log
  | Except.error _ => []

/-- The hypothetical three-unit scenario of the spec: chunk-size sequences
`[2, 0, 3]`, skipped, `[1]`. -/
def scenario_outcomes : List CompOutcome :=
  [CompOutcome.ok
      [some ⟨[7, 8], [10, 20]⟩, some ⟨[], []⟩, some ⟨[1, 2, 3], [30, 40, 50]⟩]
      [("flag", 4)],
    CompOutcome.skip,
    CompOutcome.ok [some ⟨[9], [60]⟩] []]

/-- Aggregator state after the scenario run. -/
def scenario_state : AggState :=
  ⟨6,
    [some [some ⟨[7, 8], [10, 20]⟩, some ⟨[], []⟩, some ⟨[1, 2, 3], [30, 40, 50]⟩],
      none,
      some [some ⟨[9], [60]⟩]]⟩

/-- Event log of the scenario run. -/
def scenario_log : List LogEvent :=
  [LogEvent.finished 0 5, LogEvent.flagsFired 0 [("flag", 4)], LogEvent.skipWarning 1,
    LogEvent.finished 2 1, LogEvent.flagsFired 2 []]

lemma range'_append_one (s m n : Nat) :
    List.range' s m ++ List.range' (s + m) n = List.range' s (m + n) := by
  have h := List.range'_append s m n 1
  simp only [Nat.one_mul] at h
  rw [h, Nat.add_comm]

lemma process_chunks_snd (c : Nat) (chs : ChunkStream) :
    (process_chunks c chs).2 = c + unit_num_waves chs := by
  induction chs generalizing c with
  | nil => simp [process_chunks, unit_num_waves]
  | cons hd tl ih =>
    cases hd with
    | none => simp [process_chunks, unit_num_waves, ih]
    | some ch => simp [process_chunks, unit_num_waves, ih, Nat.add_assoc]

lemma process_chunks_ids (c : Nat) (chs : ChunkStream) :
    ((process_chunks c chs).1.map RecordChunk.wave_id_local).flatten =
      List.range' c (unit_num_waves chs) := by
  induction chs generalizing c with
  | nil => simp [process_chunks, unit_num_waves]
  | cons hd tl ih =>
    cases hd with
    | none => simp [process_chunks, unit_num_waves, ih]
    | some ch =>
      simp only [process_chunks, unit_num_waves, List.map_cons, List.flatten_cons, ih]
      exact range'_append_one c ch.wave_id_local.length (unit_num_waves tl)

lemma process_chunks_payload (c : Nat) (chs : ChunkStream) :
    (process_chunks c chs).1.map RecordChunk.payload =
      (chs.filterMap id).map RecordChunk.payload := by
  induction chs generalizing c with
  | nil => simp [process_chunks]
  | cons hd tl ih =>
    cases hd with
    | none => simp [process_chunks, ih]
    | some ch => simp [process_chunks, ih]

lemma process_chunks_sizes (c : Nat) (chs : ChunkStream) :
    (process_chunks c chs).1.map (fun ch => ch.wave_id_local.length) =
      (chs.filterMap id).map (fun ch => ch.wave_id_local.length) := by
  induction chs generalizing c with
  | nil => simp [process_chunks]
  | cons hd tl ih =>
    cases hd with
    | none => simp [process_chunks, ih]
    | some ch => simp [process_chunks, ih, List.length_range']

lemma generate_results_from_snd (c : Nat) (rfs : List (Option ChunkStream)) :
    (generate_results_from c rfs).2 = c + (rfs.map slotWaves).sum := by
  induction rfs generalizing c with
  | nil => simp [generate_results_from]
  | cons hd tl ih =>
    cases hd with
    | none => simp [generate_results_from, slotWaves, ih]
    | some chunks =>
      simp [generate_results_from, slotWaves, ih, process_chunks_snd, Nat.add_assoc]

lemma generate_results_from_ids (c : Nat) (rfs : List (Option ChunkStream)) :
    ((generate_results_from c rfs).1.map RecordChunk.wave_id_local).flatten =
      List.range' c ((rfs.map slotWaves).sum) := by
  induction rfs generalizing c with
  | nil => simp [generate_results_from]
  | cons hd tl ih =>
    cases hd with
    | none => simp [generate_results_from, slotWaves, ih]
    | some chunks =>
      simp only [generate_results_from, slotWaves, List.map_cons, List.map_append,
        List.flatten_append, List.sum_cons, ih, process_chunks_ids, process_chunks_snd]
      exact range'_append_one c (unit_num_waves chunks) ((tl.map slotWaves).sum)

lemma generate_results_from_payload (c : Nat) (rfs : List (Option ChunkStream)) :
    (generate_results_from c rfs).1.map RecordChunk.payload =
      (presentChunks rfs).map RecordChunk.payload := by
  induction rfs generalizing c with
  | nil => simp [generate_results_from, presentChunks]
  | cons hd tl ih =>
    cases hd with
    | none => simp [generate_results_from, presentChunks, ih, presentChunks]
    | some chunks =>
      simp [generate_results_from, presentChunks, List.filterMap_append, ih,
        process_chunks_payload]

lemma generate_results_from_sizes (c : Nat) (rfs : List (Option ChunkStream)) :
    (generate_results_from c rfs).1.map (fun ch => ch.wave_id_local.length) =
      (presentChunks rfs).map (fun ch => ch.wave_id_local.length) := by
  induction rfs generalizing c with
  | nil => simp [generate_results_from, presentChunks]
  | cons hd tl ih =>
    cases hd with
    | none => simp [generate_results_from, presentChunks, ih]
    | some chunks =>
      simp [generate_results_from, presentChunks, List.filterMap_append, ih,
        process_chunks_sizes]

lemma step_skip (outcomes : List CompOutcome) (i : Nat) (st : AggState)
    (hout : outcomes.getD i CompOutcome.skip = CompOutcome.skip) :
    step outcomes st i = st := by
  unfold step; rw [hout]; rfl

lemma step_fatal (outcomes : List CompOutcome) (i : Nat) (st : AggState) (e : Nat)
    (hout : outcomes.getD i CompOutcome.skip = CompOutcome.fatal e) :
    step outcomes st i = st := by
  unfold step; rw [hout]; rfl

lemma step_ok (outcomes : List CompOutcome) (i : Nat) (st : AggState)
    (chunks : ChunkStream) (state : StateSummary)
    (hout : outcomes.getD i CompOutcome.skip = CompOutcome.ok chunks state) :
    step outcomes st i =
      ⟨st.num_waves_total + unit_num_waves chunks,
        st.result_files.set i (some chunks)⟩ := by
  unfold step; rw [hout]; rfl

lemma unitEvents_skip (outcomes : List CompOutcome) (i : Nat)
    (hout : outcomes.getD i CompOutcome.skip = CompOutcome.skip) :
    unitEvents outcomes i = [LogEvent.skipWarning i] := by
  unfold unitEvents; rw [hout]

lemma unitEvents_ok (outcomes : List CompOutcome) (i : Nat)
    (chunks : ChunkStream) (state : StateSummary)
    (hout : outcomes.getD i CompOutcome.skip = CompOutcome.ok chunks state) :
    unitEvents outcomes i =
      [LogEvent.finished i (unit_num_waves chunks), LogEvent.flagsFired i state] := by
  unfold unitEvents; rw [hout]

lemma uw_skip (outcomes : List CompOutcome) (i : Nat)
    (hout : outcomes.getD i CompOutcome.skip = CompOutcome.skip) :
    uw outcomes i = 0 := by
  unfold uw; rw [hout]; rfl

lemma uw_fatal (outcomes : List CompOutcome) (i : Nat) (e : Nat)
    (hout : outcomes.getD i CompOutcome.skip = CompOutcome.fatal e) :
    uw outcomes i = 0 := by
  unfold uw; rw [hout]; rfl

lemma uw_ok (outcomes : List CompOutcome) (i : Nat)
    (chunks : ChunkStream) (state : StateSummary)
    (hout : outcomes.getD i CompOutcome.skip = CompOutcome.ok chunks state) :
    uw outcomes i = unit_num_waves chunks := by
  unfold uw; rw [hout]; rfl

lemma upd_skip (outcomes : List CompOutcome) (rf : List (Option ChunkStream)) (i : Nat)
    (hout : outcomes.getD i CompOutcome.skip = CompOutcome.skip) :
    upd outcomes rf i = rf := by
  unfold upd; rw [hout]

lemma upd_fatal (outcomes : List CompOutcome) (rf : List (Option ChunkStream))
    (i : Nat) (e : Nat)
    (hout : outcomes.getD i CompOutcome.skip = CompOutcome.fatal e) :
    upd outcomes rf i = rf := by
  unfold upd; rw [hout]

lemma upd_ok (outcomes : List CompOutcome) (rf : List (Option ChunkStream)) (i : Nat)
    (chunks : ChunkStream) (state : StateSummary)
    (hout : outcomes.getD i CompOutcome.skip = CompOutcome.ok chunks state) :
    upd outcomes rf i = rf.set i (some chunks) := by
  unfold upd; rw [hout]

lemma run_units_ok_elim (outcomes : List CompOutcome) (order : List Nat)
    (st0 st : AggState) (log : List LogEvent)
    (h : run_units outcomes order st0 = Except.ok (st, log)) :
    st = order.foldl (step outcomes) st0 ∧
      log = (order.map (unitEvents outcomes)).flatten := by
  induction order generalizing st0 st log with
  | nil =>
    simp only [run_units, Except.ok.injEq, Prod.mk.injEq] at h
    simp [← h.1, ← h.2]
  | cons i rest ih =>
    simp only [run_units] at h
    cases hout : outcomes.getD i CompOutcome.skip with
    | fatal e => rw [hout] at h; simp at h
    | skip =>
      rw [hout] at h
      simp only [CompOutcome.resultPair, handle_result] at h
      cases hrec : run_units outcomes rest st0 with
      | error e => rw [hrec] at h; simp at h
      | ok p =>
        obtain ⟨st', log'⟩ := p
        rw [hrec] at h
        simp only [Except.ok.injEq, Prod.mk.injEq] at h
        obtain ⟨h1, h2⟩ := h
        obtain ⟨ih1, ih2⟩ := ih st0 st' log' hrec
        refine ⟨?_, ?_⟩
        · rw [← h1, ih1, List.foldl_cons, step_skip outcomes i st0 hout]
        · rw [← h2, ih2, List.map_cons, List.flatten_cons,
            unitEvents_skip outcomes i hout]
    | ok chunks state =>
      rw [hout] at h
      simp only [CompOutcome.resultPair, handle_result] at h
      cases hrec : run_units outcomes rest
          ⟨st0.num_waves_total + unit_num_waves chunks,
            st0.result_files.set i (some chunks)⟩ with
      | error e => rw [hrec] at h; simp at h
      | ok p =>
        obtain ⟨st', log'⟩ := p
        rw [hrec] at h
        simp only [Except.ok.injEq, Prod.mk.injEq] at h
        obtain ⟨h1, h2⟩ := h
        obtain ⟨ih1, ih2⟩ := ih _ st' log' hrec
        refine ⟨?_, ?_⟩
        · rw [← h1, ih1, List.foldl_cons, step_ok outcomes i st0 chunks state hout]
        · rw [← h2, ih2, List.map_cons, List.flatten_cons,
            unitEvents_ok outcomes i chunks state hout]

lemma run_units_ok_intro (outcomes : List CompOutcome) (order : List Nat)
    (st0 : AggState)
    (hnf : ∀ i ∈ order, (outcomes.getD i CompOutcome.skip).isFatal = false) :
    run_units outcomes order st0 =
      Except.ok (order.foldl (step outcomes) st0,
        (order.map (unitEvents outcomes)).flatten) := by
  induction order generalizing st0 with
  | nil => simp [run_units]
  | cons i rest ih =>
    have hi := hnf i (List.mem_cons_self i rest)
    have hrest : ∀ j ∈ rest, (outcomes.getD j CompOutcome.skip).isFatal = false :=
      fun j hj => hnf j (List.mem_cons_of_mem i hj)
    cases hout : outcomes.getD i CompOutcome.skip with
    | fatal e => rw [hout] at hi; exact absurd hi (by simp [CompOutcome.isFatal])
    | skip =>
      simp only [run_units]
      rw [hout]
      simp only [CompOutcome.resultPair, handle_result]
      rw [ih st0 hrest, List.foldl_cons, step_skip outcomes i st0 hout,
        List.map_cons, List.flatten_cons, unitEvents_skip outcomes i hout]
    | ok chunks state =>
      simp only [run_units]
      rw [hout]
      simp only [CompOutcome.resultPair, handle_result]
      rw [ih _ hrest, List.foldl_cons, step_ok outcomes i st0 chunks state hout,
        List.map_cons, List.flatten_cons, unitEvents_ok outcomes i chunks state hout]

lemma foldl_step_num (outcomes : List CompOutcome) (order : List Nat) (st : AggState) :
    (order.foldl (step outcomes) st).num_waves_total =
      st.num_waves_total + (order.map (uw outcomes)).sum := by
  induction order generalizing st with
  | nil => simp
  | cons i rest ih =>
    rw [List.foldl_cons, ih, List.map_cons, List.sum_cons]
    cases hout : outcomes.getD i CompOutcome.skip with
    | skip => rw [step_skip outcomes i st hout, uw_skip outcomes i hout]; omega
    | fatal e => rw [step_fatal outcomes i st e hout, uw_fatal outcomes i e hout]; omega
    | ok chunks state =>
      rw [step_ok outcomes i st chunks state hout, uw_ok outcomes i chunks state hout]
      dsimp only
      omega

lemma foldl_step_files (outcomes : List CompOutcome) (order : List Nat) (st : AggState) :
    (order.foldl (step outcomes) st).result_files =
      order.foldl (upd outcomes) st.result_files := by
  induction order generalizing st with
  | nil => simp
  | cons i rest ih =>
    rw [List.foldl_cons, List.foldl_cons, ih]
    congr 1
    cases hout : outcomes.getD i CompOutcome.skip with
    | skip => rw [step_skip outcomes i st hout, upd_skip outcomes _ i hout]
    | fatal e => rw [step_fatal outcomes i st e hout, upd_fatal outcomes _ i e hout]
    | ok chunks state =>
      rw [step_ok outcomes i st chunks state hout, upd_ok outcomes _ i chunks state hout]

lemma upd_length (outcomes : List CompOutcome) (rf : List (Option ChunkStream)) (i : Nat) :
    (upd outcomes rf i).length = rf.length := by
  unfold upd
  cases outcomes.getD i CompOutcome.skip <;> simp

lemma foldl_upd_length (outcomes : List CompOutcome) (order : List Nat)
    (rf : List (Option ChunkStream)) :
    (order.foldl (upd outcomes) rf).length = rf.length := by
  induction order generalizing rf with
  | nil => simp
  | cons i rest ih => rw [List.foldl_cons, ih, upd_length]

lemma foldl_upd_getElem_not_mem (outcomes : List CompOutcome) (order : List Nat)
    (rf : List (Option ChunkStream)) (j : Nat) (hj : j ∉ order) :
    (order.foldl (upd outcomes) rf)[j]? = rf[j]? := by
  induction order generalizing rf with
  | nil => simp
  | cons i rest ih =>
    have hji : j ≠ i := fun h => hj (h ▸ List.mem_cons_self i rest)
    have hjr : j ∉ rest := fun h => hj (List.mem_cons_of_mem i h)
    rw [List.foldl_cons, ih _ hjr]
    unfold upd
    cases outcomes.getD i CompOutcome.skip with
    | ok chunks state => exact List.getElem?_set_ne (Ne.symm hji)
    | skip => rfl
    | fatal e => rfl

lemma foldl_upd_getElem_not_ok (outcomes : List CompOutcome) (order : List Nat)
    (rf : List (Option ChunkStream)) (j : Nat)
    (hj : toSlot (outcomes.getD j CompOutcome.skip) = none) :
    (order.foldl (upd outcomes) rf)[j]? = rf[j]? := by
  induction order generalizing rf with
  | nil => simp
  | cons i rest ih =>
    rw [List.foldl_cons, ih]
    unfold upd
    cases hout : outcomes.getD i CompOutcome.skip with
    | ok chunks state =>
      have hji : i ≠ j := by
        intro h
        subst h
        rw [hout] at hj
        simp [toSlot] at hj
      exact List.getElem?_set_ne hji
    | skip => rfl
    | fatal e => rfl

lemma foldl_upd_getElem_ok (outcomes : List CompOutcome) (order : List Nat)
    (rf : List (Option ChunkStream)) (j : Nat) (chunks : ChunkStream)
    (state : StateSummary)
    (hout : outcomes.getD j CompOutcome.skip = CompOutcome.ok chunks state)
    (hmem : j ∈ order) (hlen : j < rf.length) :
    (order.foldl (upd outcomes) rf)[j]? = some (some chunks) := by
  induction order generalizing rf with
  | nil => exact absurd hmem (List.not_mem_nil j)
  | cons i rest ih =>
    rw [List.foldl_cons]
    by_cases hjr : j ∈ rest
    · exact ih _ hjr (by rw [upd_length]; exact hlen)
    · have hji : j = i := by
        rcases List.mem_cons.mp hmem with h | h
        · exact h
        · exact absurd h hjr
      rw [foldl_upd_getElem_not_mem outcomes rest _ j hjr]
      subst hji
      unfold upd
      rw [hout]
      exact List.getElem?_set_self hlen

lemma foldl_upd_canon (outcomes : List CompOutcome) (order : List Nat)
    (hmem : ∀ j, j ∈ order ↔ j < outcomes.length) :
    order.foldl (upd outcomes) (List.replicate outcomes.length none) =
      outcomes.map toSlot := by
  apply List.ext_getElem?
  intro j
  by_cases hj : j < outcomes.length
  · have hjo : j ∈ order := (hmem j).mpr hj
    have hget : outcomes.getD j CompOutcome.skip = outcomes[j] :=
      List.getD_eq_getElem outcomes CompOutcome.skip hj
    rw [List.getElem?_map]
    have hrhs : outcomes[j]? = some (outcomes[j]) := List.getElem?_eq_getElem hj
    rw [hrhs]
    cases hout : outcomes[j] with
    | ok chunks state =>
      rw [foldl_upd_getElem_ok outcomes order _ j chunks state (by rw [hget, hout])
        hjo (by simpa using hj)]
      simp [toSlot]
    | skip =>
      rw [foldl_upd_getElem_not_ok outcomes order _ j (by rw [hget, hout]; rfl)]
      simp [toSlot, List.getElem?_replicate, hj]
    | fatal e =>
      rw [foldl_upd_getElem_not_ok outcomes order _ j (by rw [hget, hout]; rfl)]
      simp [toSlot, List.getElem?_replicate, hj]
  · have h1 : (order.foldl (upd outcomes) (List.replicate outcomes.length none))[j]? = none := by
      apply List.getElem?_eq_none
      rw [foldl_upd_length]
      simpa using Nat.le_of_not_lt hj
    have h2 : (outcomes.map toSlot)[j]? = none := by
      apply List.getElem?_eq_none
      simpa using Nat.le_of_not_lt hj
    rw [h1, h2]

lemma map_range_getD {α β : Type} (f : α → β) (d : α) (l : List α) :
    (List.range l.length).map (fun i => f (l.getD i d)) = l.map f := by
  induction l with
  | nil => simp
  | cons x xs ih =>
    rw [List.length_cons, List.range_succ_eq_map, List.map_cons, List.map_map]
    simp only [List.getD_cons_zero, Function.comp_def, Nat.succ_eq_add_one,
      List.getD_cons_succ]
    rw [List.map_cons, ih]

lemma AggState.ext2 (a b : AggState) (h1 : a.num_waves_total = b.num_waves_total)
    (h2 : a.result_files = b.result_files) : a = b := by
  cases a; cases b; simp_all

lemma run_units_canon (outcomes : List CompOutcome) (order : List Nat)
    (hperm : order.Perm (List.range outcomes.length))
    (hnf : ∀ o ∈ outcomes, o.isFatal = false) :
    run_units outcomes order ⟨0, List.replicate outcomes.length none⟩ =
      Except.ok
        (⟨(outcomes.map (fun o => slotWaves (toSlot o))).sum, outcomes.map toSlot⟩,
          (order.map (unitEvents outcomes)).flatten) := by
  have hmem : ∀ j, j ∈ order ↔ j < outcomes.length := fun j => by
    rw [hperm.mem_iff, List.mem_range]
  have hnford : ∀ i ∈ order, (outcomes.getD i CompOutcome.skip).isFatal = false := by
    intro i hi
    have hlt : i < outcomes.length := (hmem i).mp hi
    rw [List.getD_eq_getElem outcomes CompOutcome.skip hlt]
    exact hnf _ (List.getElem_mem hlt)
  rw [run_units_ok_intro outcomes order _ hnford]
  congr 1
  refine Prod.ext ?_ rfl
  refine AggState.ext2 _ _ ?_ ?_
  · rw [foldl_step_num]
    have hsum : (order.map (uw outcomes)).sum =
        ((List.range outcomes.length).map (uw outcomes)).sum :=
      (hperm.map (uw outcomes)).sum_eq
    have hrange : (List.range outcomes.length).map (uw outcomes) =
        outcomes.map (fun o => slotWaves (toSlot o)) :=
      map_range_getD (fun o => slotWaves (toSlot o)) CompOutcome.skip outcomes
    simp [hsum, hrange]
  · rw [foldl_step_files]
    exact foldl_upd_canon outcomes order hmem

lemma process_cdip_station_canon (outcomes : List CompOutcome) (nproc : Option Nat)
    (cc : Nat) (order : List Nat) (hne : outcomes ≠ [])
    (hperm : order.Perm (List.range outcomes.length))
    (hnf : ∀ o ∈ outcomes, o.isFatal = false) :
    process_cdip_station outcomes nproc cc order =
      (if (outcomes.map toSlot).any Option.isSome then
        Except.ok
          ⟨some (generate_results (outcomes.map toSlot)).1,
            (outcomes.map (fun o => slotWaves (toSlot o))).sum,
            ((dispatch_order (effective_nproc nproc cc outcomes.length)
              outcomes.length order).map (unitEvents outcomes)).flatten⟩
      else
        Except.ok
          ⟨none, (outcomes.map (fun o => slotWaves (toSlot o))).sum,
            ((dispatch_order (effective_nproc nproc cc outcomes.length)
              outcomes.length order).map (unitEvents outcomes)).flatten ++
              [LogEvent.noOutputWarning]⟩) := by
  have h0 : ¬ outcomes.length = 0 := fun h => hne (List.length_eq_zero.mp h)
  have hdisp : (dispatch_order (effective_nproc nproc cc outcomes.length)
      outcomes.length order).Perm (List.range outcomes.length) := by
    unfold dispatch_order
    split
    · exact hperm
    · exact List.Perm.refl _
  unfold process_cdip_station
  rw [if_neg h0, run_units_canon outcomes _ hdisp hnf]

lemma generate_results_from_append (c : Nat) (xs ys : List (Option ChunkStream)) :
    generate_results_from c (xs ++ ys) =
      ((generate_results_from c xs).1 ++
          (generate_results_from (generate_results_from c xs).2 ys).1,
        (generate_results_from (generate_results_from c xs).2 ys).2) := by
  induction xs generalizing c with
  | nil => simp [generate_results_from]
  | cons hd tl ih =>
    cases hd with
    | none => simp only [List.cons_append, generate_results_from, List.append_eq, ih]
    | some chunks =>
      simp only [List.cons_append, generate_results_from, List.append_eq, ih,
        List.append_assoc]

lemma run_units_fatal (outcomes : List CompOutcome) (pre : List Nat) (i : Nat)
    (post : List Nat) (st0 : AggState) (e : Nat)
    (hpre : ∀ j ∈ pre, (outcomes.getD j CompOutcome.skip).isFatal = false)
    (hi : outcomes.getD i CompOutcome.skip = CompOutcome.fatal e) :
    run_units outcomes (pre ++ i :: post) st0 = Except.error e := by
  induction pre generalizing st0 with
  | nil =>
    simp only [List.nil_append, run_units]
    rw [hi]
  | cons j rest ih =>
    have hj := hpre j (List.mem_cons_self j rest)
    have hrest : ∀ k ∈ rest, (outcomes.getD k CompOutcome.skip).isFatal = false :=
      fun k hk => hpre k (List.mem_cons_of_mem j hk)
    simp only [List.cons_append, run_units]
    cases hout : outcomes.getD j CompOutcome.skip with
    | fatal e' => rw [hout] at hj; exact absurd hj (by simp [CompOutcome.isFatal])
    | skip =>
      simp only [CompOutcome.resultPair, handle_result, List.append_eq]
      rw [ih _ hrest]
    | ok chunks state =>
      simp only [CompOutcome.resultPair, handle_result, List.append_eq]
      rw [ih _ hrest]

lemma unit_num_waves_eq_sum (chs : ChunkStream) :
    unit_num_waves chs =
      ((chs.filterMap id).map (fun ch => ch.wave_id_local.length)).sum := by
  induction chs with
  | nil => simp [unit_num_waves]
  | cons hd tl ih =>
    cases hd with
    | none => simp [unit_num_waves, ih]
    | some ch => simp [unit_num_waves, ih]

lemma slotWaves_sum_eq_present (rfs : List (Option ChunkStream)) :
    (rfs.map slotWaves).sum =
      ((presentChunks rfs).map (fun ch => ch.wave_id_local.length)).sum := by
  induction rfs with
  | nil => simp [presentChunks]
  | cons hd tl ih =>
    cases hd with
    | none => simp only [List.map_cons, List.sum_cons, slotWaves, ih, presentChunks,
        List.filterMap_cons, List.flatten]; simp [presentChunks]
    | some chunks =>
      simp only [List.map_cons, List.sum_cons, slotWaves, ih]
      have : presentChunks (some chunks :: tl) =
          chunks.filterMap id ++ presentChunks tl := by
        simp [presentChunks, List.filterMap_append]
      rw [this, List.map_append, List.sum_append, unit_num_waves_eq_sum]

lemma replicate_none_any_isSome (n : Nat) :
    (List.replicate n (none : Option ChunkStream)).any Option.isSome = false := by
  induction n with
  | zero => rfl
  | succ m ih => simp [List.replicate_succ, ih]

lemma flatten_map_singleton {α β : Type} (f : α → β) (l : List α) :
    (l.map (fun x => [f x])).flatten = l.map f := by
  induction l with
  | nil => rfl
  | cons x xs ih => simp [ih]

lemma loggedFlags_flatten_unitEvents (outcomes : List CompOutcome) (order : List Nat) :
    loggedFlags ((order.map (unitEvents outcomes)).flatten) =
      unitFlagSummaries outcomes order := by
  induction order with
  | nil => rfl
  | cons i rest ih =>
    simp only [List.map_cons, List.flatten_cons, unitFlagSummaries, List.filterMap_cons]
    cases hout : outcomes.getD i CompOutcome.skip with
    | skip =>
      rw [unitEvents_skip outcomes i hout]
      simp only [loggedFlags, List.filterMap_append] at ih ⊢
      rw [ih]
      rfl
    | fatal e =>
      have hev : unitEvents outcomes i = [LogEvent.skipWarning i] := by
        unfold unitEvents; rw [hout]
      rw [hev]
      simp only [loggedFlags, List.filterMap_append] at ih ⊢
      rw [ih]
      rfl
    | ok chunks state =>
      rw [unitEvents_ok outcomes i chunks state hout]
      simp only [loggedFlags, List.filterMap_append] at ih ⊢
      rw [ih]
      rfl

lemma run_units_all_skip (outcomes : List CompOutcome) (order : List Nat)
    (st0 : AggState)
    (hall : ∀ i, outcomes.getD i CompOutcome.skip = CompOutcome.skip) :
    run_units outcomes order st0 =
      Except.ok (st0, order.map LogEvent.skipWarning) := by
  induction order generalizing st0 with
  | nil => simp [run_units]
  | cons i rest ih =>
    simp only [run_units]
    rw [hall i]
    simp only [CompOutcome.resultPair, handle_result]
    rw [ih st0]
    rfl

/-- C1: for every ordered sequence of per-unit result handles (arbitrary
chunk counts and sizes, including zero and skipped units), the merge stage
`generate_results` yields chunks whose `wave_id_local` fields, flattened in
output order, are exactly `0 .. total_records - 1`; the chunks appear in
canonical unit order with intra-unit and intra-chunk original order (and
all other fields) preserved; and the final counter equals the total number
of records. -/
theorem claim_C1 (result_files : List (Option ChunkStream)) :
    ((generate_results result_files).1.map RecordChunk.wave_id_local).flatten =
      List.range (generate_results result_files).2 ∧
    (generate_results result_files).1.map RecordChunk.payload =
      (presentChunks result_files).map RecordChunk.payload ∧
    (generate_results result_files).1.map (fun ch => ch.wave_id_local.length) =
      (presentChunks result_files).map (fun ch => ch.wave_id_local.length) ∧
    (generate_results result_files).2 =
      ((presentChunks result_files).map (fun ch => ch.wave_id_local.length)).sum := by
  refine ⟨?_, generate_results_from_payload 0 result_files,
    generate_results_from_sizes 0 result_files, ?_⟩
  · rw [generate_results, generate_results_from_ids, generate_results_from_snd]
    simp [List.range_eq_range']
  · rw [generate_results, generate_results_from_snd, slotWaves_sum_eq_present]
    simp

/-- C2, counterexample: the claim says the effective worker count is
`min(P, N, available_cores)`, but with `P = 8` requested, 4 cores and 10
input files the code uses `min(8, 10) = 8` workers, not
`min(8, 10, 4) = 4` — the supplied `nproc` is never clamped by the core
count. -/
theorem claim_C2_counterexample :
    effective_nproc (some 8) 4 10 = 8 ∧ min 8 (min 10 4) = 4 ∧
      effective_nproc (some 8) 4 10 ≠ min 8 (min 10 4) := by
  decide

/-- C2, amended: the effective worker count is `min(P, N)` when `P` is
supplied and `min(cpu_count, N)` when it is not (the core count enters only
through the default); and when the effective count is at most 1 the run is
sequential — the completion order of a pool plays no role in the result. -/
theorem claim_C2 :
    (∀ (p cc n : Nat), effective_nproc (some p) cc n = min p n) ∧
    (∀ (cc n : Nat), effective_nproc none cc n = min cc n) ∧
    (∀ (outcomes : List CompOutcome) (nproc : Option Nat) (cc : Nat)
        (order1 order2 : List Nat),
      effective_nproc nproc cc outcomes.length ≤ 1 →
      process_cdip_station outcomes nproc cc order1 =
        process_cdip_station outcomes nproc cc order2) := by
  refine ⟨fun p cc n => rfl, fun cc n => rfl, ?_⟩
  intro outcomes nproc cc order1 order2 h
  unfold process_cdip_station
  by_cases h0 : outcomes.length = 0
  · rw [if_pos h0, if_pos h0]
  · rw [if_neg h0, if_neg h0]
    have hd : dispatch_order (effective_nproc nproc cc outcomes.length)
          outcomes.length order1 =
        dispatch_order (effective_nproc nproc cc outcomes.length)
          outcomes.length order2 := by
      unfold dispatch_order
      rw [if_neg (by omega), if_neg (by omega)]
    rw [hd]

/-- Witness for C2 at a concrete input: with `nproc = 1` the result does
not depend on the pool completion order. -/
theorem claim_C2_witness :
    effective_nproc (some 1) 0 1 ≤ 1 ∧
    process_cdip_station [CompOutcome.skip] (some 1) 0 [5] =
      process_cdip_station [CompOutcome.skip] (some 1) 0 [9] :=
  ⟨by decide, claim_C2.2.2 [CompOutcome.skip] (some 1) 0 [5] [9] (by decide)⟩

/-- C3: if, during parallel processing, some unit's computation raises an
unhandled error (the first fatal completion after a prefix of non-fatal
ones), `process_cdip_station` aborts the completion loop, propagates the
original error to its caller, and returns no `StationOutput` — so
`write_records` is never invoked for the batch. -/
theorem claim_C3 (outcomes : List CompOutcome) (nproc : Option Nat) (cc : Nat)
    (pre post : List Nat) (i e : Nat)
    (hpar : 1 < effective_nproc nproc cc outcomes.length)
    (hpre : ∀ j ∈ pre, (outcomes.getD j CompOutcome.skip).isFatal = false)
    (hi : outcomes.getD i CompOutcome.skip = CompOutcome.fatal e) :
    process_cdip_station outcomes nproc cc (pre ++ i :: post) =
      Except.error (Err.workerError e) := by
  have h0 : ¬ outcomes.length = 0 := by
    intro h
    unfold effective_nproc at hpar
    rw [h] at hpar
    simp at hpar
  unfold process_cdip_station
  rw [if_neg h0]
  have hdisp : dispatch_order (effective_nproc nproc cc outcomes.length)
      outcomes.length (pre ++ i :: post) = pre ++ i :: post := by
    unfold dispatch_order
    rw [if_pos hpar]
  rw [hdisp, run_units_fatal outcomes pre i post _ e hpre hi]

/-- Witness for C3: two files, the second raising error 7 after the first
completed, with two workers; the batch fails with error 7. -/
theorem claim_C3_witness :
    1 < effective_nproc (some 2) 0 2 ∧
    process_cdip_station [CompOutcome.skip, CompOutcome.fatal 7] (some 2) 0 [0, 1] =
      Except.error (Err.workerError 7) :=
  ⟨by decide,
    claim_C3 [CompOutcome.skip, CompOutcome.fatal 7] (some 2) 0 [0] [] 1 7
      (by decide) (by decide) (by decide)⟩

/-- C4: a skipped unit (a `None` entry in `result_files`) contributes
nothing to the merge and never shifts the output of other units: merging
with the skipped entry present equals merging with it absent, chunk for
chunk and identifier for identifier. -/
theorem claim_C4 (pre suf : List (Option ChunkStream)) :
    generate_results (pre ++ none :: suf) = generate_results (pre ++ suf) := by
  unfold generate_results
  rw [generate_results_from_append, generate_results_from_append]
  rfl

/-- C5: for deterministic per-unit outcomes without fatal errors, the merged
output and total wave count of `process_cdip_station` are the same for any
worker count, core count and pool completion order — the parallel and
sequential dispatch paths fill the canonical-order result storage
identically. -/
theorem claim_C5 (outcomes : List CompOutcome) (nproc1 nproc2 : Option Nat)
    (cc1 cc2 : Nat) (order1 order2 : List Nat)
    (h1 : order1.Perm (List.range outcomes.length))
    (h2 : order2.Perm (List.range outcomes.length))
    (hnf : ∀ o ∈ outcomes, o.isFatal = false) :
    outProj (process_cdip_station outcomes nproc1 cc1 order1) =
      outProj (process_cdip_station outcomes nproc2 cc2 order2) := by
  by_cases hne : outcomes = []
  · subst hne; rfl
  · rw [process_cdip_station_canon outcomes nproc1 cc1 order1 hne h1 hnf,
      process_cdip_station_canon outcomes nproc2 cc2 order2 hne h2 hnf]
    by_cases hany : (outcomes.map toSlot).any Option.isSome = true
    · rw [if_pos hany, if_pos hany]
      rfl
    · rw [if_neg hany, if_neg hany]
      rfl

/-- Witness for C5: one successful and one skipped unit, processed with 4
workers in completion order `[1, 0]` versus sequentially; same merged
output. -/
theorem claim_C5_witness :
    ([1, 0] : List Nat).Perm (List.range 2) ∧
    outProj (process_cdip_station
        [CompOutcome.ok [some ⟨[3], [5]⟩] [("q", 2)], CompOutcome.skip]
        (some 4) 8 [1, 0]) =
      outProj (process_cdip_station
        [CompOutcome.ok [some ⟨[3], [5]⟩] [("q", 2)], CompOutcome.skip]
        (some 1) 8 [0, 1]) :=
  ⟨by decide,
    claim_C5 [CompOutcome.ok [some ⟨[3], [5]⟩] [("q", 2)], CompOutcome.skip]
      (some 4) (some 1) 8 8 [1, 0] [0, 1] (by decide) (by decide) (by decide)⟩

/-- C6, counterexample: with two non-skipped units each firing flag `a`
once, the run's log carries only the individual per-unit counts `[1, 1]`
for `a`; the cross-unit cumulative count `2 = 1 + 1` appears nowhere in the
aggregator's output — `handle_result` maintains no running flag-count
mapping. -/
theorem claim_C6_counterexample :
    loggedFlagValues (stationLog (process_cdip_station
        [CompOutcome.ok [] [("a", 1)], CompOutcome.ok [] [("a", 1)]]
        (some 1) 1 [])) "a" = [1, 1] ∧
    (1 + 1 : Nat) = 2 ∧
    2 ∉ loggedFlagValues (stationLog (process_cdip_station
        [CompOutcome.ok [] [("a", 1)], CompOutcome.ok [] [("a", 1)]]
        (some 1) 1 [])) "a" := by
  have h1 : loggedFlagValues (stationLog (process_cdip_station
      [CompOutcome.ok [] [("a", 1)], CompOutcome.ok [] [("a", 1)]]
      (some 1) 1 [])) "a" = [1, 1] := rfl
  refine ⟨h1, rfl, ?_⟩
  rw [h1]
  decide

/-- C6, amended: `handle_result` reads each non-skipped unit's StateSummary
and logs its own per-unit flag counts; the flag mappings a run emits are
exactly the individual per-unit `num_flags_fired` mappings in handling
order — no cumulative cross-unit mapping is maintained or reported. -/
theorem claim_C6 (outcomes : List CompOutcome) (order : List Nat)
    (st0 st : AggState) (log : List LogEvent)
    (h : run_units outcomes order st0 = Except.ok (st, log)) :
    loggedFlags log = unitFlagSummaries outcomes order := by
  obtain ⟨-, hlog⟩ := run_units_ok_elim outcomes order st0 st log h
  rw [hlog, loggedFlags_flatten_unitEvents]

/-- Witness for C6 on a one-unit run. -/
theorem claim_C6_witness :
    (run_units [CompOutcome.ok [] [("a", 1)]] [0] ⟨0, [none]⟩ =
      Except.ok (⟨0, [some []]⟩,
        [LogEvent.finished 0 0, LogEvent.flagsFired 0 [("a", 1)]])) ∧
    loggedFlags [LogEvent.finished 0 0, LogEvent.flagsFired 0 [("a", 1)]] =
      unitFlagSummaries [CompOutcome.ok [] [("a", 1)]] [0] :=
  ⟨rfl,
    claim_C6 [CompOutcome.ok [] [("a", 1)]] [0] ⟨0, [none]⟩ ⟨0, [some []]⟩
      [LogEvent.finished 0 0, LogEvent.flagsFired 0 [("a", 1)]] rfl⟩

/-- C7: after a full sequential run, the Aggregator's `num_waves_total`
equals the number of global identifiers assigned by the merge stage (the
final `current_wave_id` of `generate_results`). -/
theorem claim_C7 (outcomes : List CompOutcome) (st : AggState) (log : List LogEvent)
    (h : run_units outcomes (List.range outcomes.length)
      ⟨0, List.replicate outcomes.length none⟩ = Except.ok (st, log)) :
    st.num_waves_total = (generate_results st.result_files).2 := by
  obtain ⟨hst, -⟩ := run_units_ok_elim _ _ _ _ _ h
  have hmem : ∀ j, j ∈ List.range outcomes.length ↔ j < outcomes.length :=
    fun j => List.mem_range
  have hfiles : st.result_files = outcomes.map toSlot := by
    rw [hst, foldl_step_files]
    exact foldl_upd_canon outcomes _ hmem
  have hnum : st.num_waves_total =
      ((List.range outcomes.length).map (uw outcomes)).sum := by
    rw [hst, foldl_step_num]
    simp
  have hrange : (List.range outcomes.length).map (uw outcomes) =
      outcomes.map (fun o => slotWaves (toSlot o)) :=
    map_range_getD (fun o => slotWaves (toSlot o)) CompOutcome.skip outcomes
  rw [hnum, hfiles, generate_results, generate_results_from_snd, hrange,
    List.map_map]
  simp [Function.comp_def]

/-- Witness for C7, the spec's scenario: chunk sizes `[2, 0, 3]`, skipped,
`[1]`; the Aggregator total and the merge counter both equal 6 and the
merged identifiers are `[0, 1, 2, 3, 4, 5]`. -/
theorem claim_C7_witness :
    (run_units scenario_outcomes (List.range 3) ⟨0, List.replicate 3 none⟩ =
      Except.ok (scenario_state, scenario_log)) ∧
    scenario_state.num_waves_total = (generate_results scenario_state.result_files).2 ∧
    scenario_state.num_waves_total = 6 ∧
    ((generate_results scenario_state.result_files).1.map
      RecordChunk.wave_id_local).flatten = [0, 1, 2, 3, 4, 5] :=
  ⟨rfl, claim_C7 scenario_outcomes scenario_state scenario_log rfl, rfl, rfl⟩

/-- C8: if every unit is skipped, `process_cdip_station` returns normally
with the per-unit skip warnings plus the no-output warning logged, wave
count 0, and `written = none` — `write_records` is never invoked. -/
theorem claim_C8 (outcomes : List CompOutcome) (nproc : Option Nat) (cc : Nat)
    (order : List Nat) (hne : outcomes ≠ [])
    (hskip : ∀ o ∈ outcomes, o = CompOutcome.skip) :
    process_cdip_station outcomes nproc cc order =
      Except.ok ⟨none, 0,
        (dispatch_order (effective_nproc nproc cc outcomes.length)
          outcomes.length order).map LogEvent.skipWarning ++
          [LogEvent.noOutputWarning]⟩ := by
  have hall : ∀ i, outcomes.getD i CompOutcome.skip = CompOutcome.skip := by
    intro i
    rcases Nat.lt_or_ge i outcomes.length with hlt | hge
    · rw [List.getD_eq_getElem outcomes CompOutcome.skip hlt]
      exact hskip _ (List.getElem_mem hlt)
    · exact List.getD_eq_default outcomes CompOutcome.skip hge
  have h0 : ¬ outcomes.length = 0 := fun h => hne (List.length_eq_zero.mp h)
  unfold process_cdip_station
  rw [if_neg h0, run_units_all_skip outcomes _ _ hall]
  simp [replicate_none_any_isSome]

/-- Witness for C8: two skipped files. -/
theorem claim_C8_witness :
    (∀ o ∈ [CompOutcome.skip, CompOutcome.skip], o = CompOutcome.skip) ∧
    process_cdip_station [CompOutcome.skip, CompOutcome.skip] (some 2) 0 [1, 0] =
      Except.ok ⟨none, 0,
        [LogEvent.skipWarning 1, LogEvent.skipWarning 0, LogEvent.noOutputWarning]⟩ :=
  ⟨by decide,
    claim_C8 [CompOutcome.skip, CompOutcome.skip] (some 2) 0 [1, 0]
      (by decide) (by decide)⟩

/-- C9: with zero eligible input files, `process_cdip_station` raises the
configuration error immediately, for every worker setting and completion
order — no unit is dispatched and no computation outcome is consulted. -/
theorem claim_C9 (nproc : Option Nat) (cc : Nat) (order : List Nat) :
    process_cdip_station [] nproc cc order = Except.error Err.configError := rfl

/-- C10: `handle_result` treats a result pair as skipped whenever either
component is `None`: it logs only a skip warning and leaves the aggregator
state (wave total and result storage) untouched — no chunk counting, no
statefile read. -/
theorem claim_C10 (i : Nat) (r : Option ChunkStream) (s : Option StateSummary)
    (st : AggState) (h : r = none ∨ s = none) :
    handle_result i (r, s) st = (st, [LogEvent.skipWarning i]) := by
  rcases h with h | h
  · subst h; cases s <;> rfl
  · subst h; cases r <;> rfl

/-- Witness for C10: a pair whose first component only is `None` is treated
as a skip. -/
theorem claim_C10_witness :
    ((none : Option ChunkStream) = none ∨
      (some [("x", 3)] : Option StateSummary) = none) ∧
    handle_result 0 ((none : Option ChunkStream),
        (some [("x", 3)] : Option StateSummary)) ⟨0, [none]⟩ =
      (⟨0, [none]⟩, [LogEvent.skipWarning 0]) :=
  ⟨Or.inl rfl, claim_C10 0 none (some [("x", 3)]) ⟨0, [none]⟩ (Or.inl rfl)⟩

end Fowd
